import Mathlib

/-!
Shallow embedding of the chat hub core from `server.go` of
Eman304/real-time-chat.

The Go server keeps a `ChatServer` struct: a map `clients` from client id
to a `*Client`, where each `Client` holds a buffered channel
`sendChan : chan string` created with `make(chan string, 10)`.

We model channels (Mailboxes) explicitly as values in a heap (a list of
`Mailbox`, indexed by allocation order), and the `clients` map as an
association list from id to heap index.  All operations are translated
line by line from `server.go`:

* `ChatServer.Join`              — server.go `Join` (lines 42-60)
* `ChatServer.SendMessage`       — server.go `SendMessage` (lines 63-73)
* `ChatServer.Leave`             — server.go `Leave` (lines 76-93)
* `ChatServer.GetMessages`       — server.go `GetMessages` (lines 96-111)
* `ChatServer.broadcastToOthers` — server.go `broadcastToOthers` (114-128)

Go channel semantics used: a buffered channel of capacity `cap` holds a
FIFO list of strings; `select { case ch <- msg: default: }` appends when
the buffer is under capacity and otherwise falls to the `default` branch
(drop); `msg := <-ch` takes the oldest buffered value, returns the zero
value `""` at once when the channel is closed and empty, and blocks when
the channel is open and empty.
-/

/-- A Go buffered channel of strings (`make(chan string, 10)`), the
per-participant Mailbox: a FIFO buffer with a capacity and a closed
flag. -/
structure Mailbox where
  buf : List String
  cap : Nat
  closed : Bool
  deriving Repr, DecidableEq

instance : Inhabited Mailbox := ⟨⟨[], 0, false⟩⟩

/-- `make(chan string, 10)` in `Join`: a fresh open channel with
capacity 10 and empty buffer. -/
def newMailbox : Mailbox := { buf := [], cap := 10, closed := false }

/-- The non-blocking send performed by `broadcastToOthers`:
`select { case client.sendChan <- msg: default: log full }`.
On an open channel this appends `msg` when the buffer is below capacity
and drops it (leaving the channel unchanged) when the buffer is full.
The server only ever sends on channels that are in the registry, which
are open (an invariant proved below), so the closed case never arises. -/
def Mailbox.enqueue (m : Mailbox) (msg : String) : Mailbox :=
  if m.buf.length < m.cap then { m with buf := m.buf ++ [msg] } else m

/-- `close(client.sendChan)` in `Leave`. -/
def Mailbox.closeBox (m : Mailbox) : Mailbox := { m with closed := true }

/-- Outcome of a Go channel receive `v, ok := <-ch`. -/
inductive RecvResult where
  | value (s : String) (ok : Bool) (after : Mailbox)
  | block
  deriving Repr, DecidableEq

/-- Go semantics of a receive on a buffered channel: oldest buffered
value first (`ok = true`); on a closed empty channel, the zero value
`""` with `ok = false`, channel unchanged; on an open empty channel the
receiver blocks. -/
def Mailbox.recv (m : Mailbox) : RecvResult :=
  match m.buf with
  | s :: rest => .value s true { m with buf := rest }
  | [] => if m.closed then .value "" false m else .block

/-- The value `GetMessages` actually binds (`msg := <-client.sendChan`,
server.go line 107): the received string with the `ok` flag discarded;
`none` when the receive blocks. -/
def Mailbox.recvMsg (m : Mailbox) : Option String :=
  match m.recv with
  | .value s _ _ => some s
  | .block => none

/-- The registry: the Go map `clients map[string]*Client`, modelled as
an association list from client id to the heap index of its Mailbox. -/
abbrev Registry := List (String × Nat)

/-- Go map assignment `c.clients[id] = client`: replace the binding if
the key is present, otherwise add it. -/
def Registry.update (r : Registry) (k : String) (v : Nat) : Registry :=
  match r with
  | [] => [(k, v)]
  | (k', v') :: rest =>
      if k' = k then (k, v) :: rest else (k', v') :: Registry.update rest k v

/-- Go map deletion `delete(c.clients, id)`. -/
def Registry.removeKey (r : Registry) (k : String) : Registry :=
  match r with
  | [] => []
  | (k', v') :: rest =>
      if k' = k then rest else (k', v') :: Registry.removeKey rest k

/-- The key set of the registry (the ids of currently joined
participants). -/
def Registry.keys (r : Registry) : List String := r.map Prod.fst

/-- The mailbox references held by the registry. -/
def Registry.refs (r : Registry) : List Nat := r.map Prod.snd

/-- The `ChatServer` state: the `clients` map plus the store of all
channels ever allocated (`heap`; a Go channel value is a reference, and
allocation order indexes the store).  The `nextID` field of the Go
struct is never read by any RPC method and is omitted. -/
structure ChatServer where
  clients : Registry
  heap : List Mailbox
  deriving Repr, DecidableEq

/-- The state built in `main`: `clients: make(map[string]*Client)`. -/
def initServer : ChatServer := { clients := [], heap := [] }

/-- Read a mailbox out of the heap (dereference a channel value). -/
def ChatServer.mbox (s : ChatServer) (ref : Nat) : Mailbox :=
  s.heap.getD ref default

/-- The heap after `broadcastToOthers` has walked the given registry
entries: for each entry whose id differs from `senderID`, perform the
non-blocking send into its mailbox (server.go lines 118-127). -/
def broadcastHeap : Registry → List Mailbox → String → String → List Mailbox
  | [], heap, _, _ => heap
  | (id, ref) :: rest, heap, senderID, msg =>
      if id = senderID then broadcastHeap rest heap senderID msg
      else broadcastHeap rest
        (heap.set ref ((heap.getD ref default).enqueue msg)) senderID msg

/-- server.go `broadcastToOthers` (lines 114-128): sends `msg` to every
registered client except `senderID`, dropping on full channels. -/
def ChatServer.broadcastToOthers (s : ChatServer) (senderID msg : String) :
    ChatServer :=
  { s with heap := broadcastHeap s.clients s.heap senderID msg }

/-- RPC reply of `Join` and `Leave`. -/
structure JoinResponse where
  ClientID : String
  deriving Repr, DecidableEq

/-- RPC message of `SendMessage`. -/
structure Message where
  ClientID : String
  Content : String
  deriving Repr, DecidableEq

/-- server.go `Join` (lines 42-60): allocates a fresh buffered channel
of capacity 10, stores the client in the map under `req.ClientID`
(overwriting any previous binding), echoes the id, then broadcasts the
join notice to all others.  The Go method always returns `nil`; the
`Option String` component is the returned `error`. -/
def ChatServer.Join (s : ChatServer) (clientID : String) :
    ChatServer × Option String × JoinResponse :=
  let ref := s.heap.length
  let s1 : ChatServer :=
    { clients := s.clients.update clientID ref, heap := s.heap ++ [newMailbox] }
  let s2 := s1.broadcastToOthers clientID ("📢 User " ++ clientID ++ " joined")
  (s2, none, { ClientID := clientID })

/-- server.go `SendMessage` (lines 63-73): formats `"[id]: content"`,
broadcasts it to all clients other than the sender, and replies with the
sender's id and the fixed content `"message_received"`.  No registry
lookup of the sender is performed and the returned `error` is always
`nil`. -/
def ChatServer.SendMessage (s : ChatServer) (msg : Message) :
    ChatServer × Option String × Message :=
  let broadcastMsg := "[" ++ msg.ClientID ++ "]: " ++ msg.Content
  let s' := s.broadcastToOthers msg.ClientID broadcastMsg
  (s', none, { ClientID := msg.ClientID, Content := "message_received" })

/-- server.go `Leave` (lines 76-93): if the id is registered, deletes
it from the map and closes its channel; in every case it then echoes
the id and broadcasts the leave notice to all (remaining) others.  The
returned `error` is always `nil`. -/
def ChatServer.Leave (s : ChatServer) (clientID : String) :
    ChatServer × Option String × JoinResponse :=
  let s1 : ChatServer :=
    match s.clients.lookup clientID with
    | some ref =>
        { clients := s.clients.removeKey clientID,
          heap := s.heap.set ref (s.mbox ref).closeBox }
    | none => s
  let s2 := s1.broadcastToOthers clientID ("📢 User " ++ clientID ++ " left")
  (s2, none, { ClientID := clientID })

/-- Outcome of a `GetMessages` call: a request-level error, a delivered
batch of messages, or a receive that blocks awaiting a send. -/
inductive PollResult where
  | err (e : String)
  | msgs (l : List String)
  | blocked
  deriving Repr, DecidableEq

/-- server.go `GetMessages` (lines 96-111): looks the id up in the map
and returns the error `"client <id> not found"` if absent; otherwise
performs one receive `msg := <-client.sendChan` (blocking while the
channel is open and empty) and returns the one-element batch
`[]string{msg}`. -/
def ChatServer.GetMessages (s : ChatServer) (clientID : String) :
    ChatServer × PollResult :=
  match s.clients.lookup clientID with
  | none => (s, .err ("client " ++ clientID ++ " not found"))
  | some ref =>
      match (s.mbox ref).recv with
      | .block => (s, .blocked)
      | .value v _ after => ({ s with heap := s.heap.set ref after }, .msgs [v])

/-- States reachable from the freshly started server by any sequence of
the four RPC operations. -/
inductive Reachable : ChatServer → Prop
  | init : Reachable initServer
  | join (s : ChatServer) (id : String) :
      Reachable s → Reachable (s.Join id).1
  | send (s : ChatServer) (m : Message) :
      Reachable s → Reachable (s.SendMessage m).1
  | leave (s : ChatServer) (id : String) :
      Reachable s → Reachable (s.Leave id).1
  | poll (s : ChatServer) (id : String) :
      Reachable s → Reachable (s.GetMessages id).1

/-- The structural invariant of the server state: registered ids are
pairwise distinct (Go map key semantics), the mailbox references they
hold are pairwise distinct and valid, and every registered mailbox is
open with capacity 10. -/
abbrev GoodState (s : ChatServer) : Prop :=
  s.clients.keys.Nodup ∧
  s.clients.refs.Nodup ∧
  ∀ p ∈ s.clients, p.2 < s.heap.length ∧
    (s.mbox p.2).closed = false ∧ (s.mbox p.2).cap = 10

/-- A concrete run: A, B and C join, then C posts nine times.  After it,
B's mailbox (heap cell 1) holds exactly 10 pending messages — its full
capacity — while C's own mailbox (heap cell 2) is still empty. -/
def fullBState : ChatServer :=
  (fun t => (t.SendMessage ⟨"C", "x"⟩).1)^[9]
    (((initServer.Join "A").1.Join "B").1.Join "C").1

/-! ### Registry lemmas -/

theorem Registry.keys_cons (p : String × Nat) (r : Registry) :
    Registry.keys (p :: r) = p.1 :: r.keys := rfl

theorem Registry.refs_cons (p : String × Nat) (r : Registry) :
    Registry.refs (p :: r) = p.2 :: r.refs := rfl

theorem Registry.mem_keys_of_mem {r : Registry} {p : String × Nat} (h : p ∈ r) :
    p.1 ∈ r.keys := List.mem_map_of_mem Prod.fst h

theorem Registry.mem_refs_of_mem {r : Registry} {p : String × Nat} (h : p ∈ r) :
    p.2 ∈ r.refs := List.mem_map_of_mem Prod.snd h

theorem Registry.lookup_cons (k : String) (v : Nat) (rest : Registry) (a : String) :
    List.lookup a ((k, v) :: rest) = if a = k then some v else List.lookup a rest := by
  rw [List.lookup_cons]
  rcases eq_or_ne a k with h | h
  · simp [h]
  · simp [h, beq_eq_false_iff_ne.2 h]

theorem Registry.lookup_eq_none {r : Registry} {k : String} :
    List.lookup k r = none ↔ k ∉ r.keys := by
  induction r with
  | nil => simp [Registry.keys]
  | cons p rest ih =>
      obtain ⟨k', v'⟩ := p
      rw [Registry.lookup_cons, Registry.keys_cons]
      rcases eq_or_ne k k' with h | h
      · simp [h]
      · simpa [h, Ne.symm h] using ih

theorem Registry.lookup_mem {r : Registry} {k : String} {v : Nat}
    (h : List.lookup k r = some v) : (k, v) ∈ r := by
  induction r with
  | nil => simp [List.lookup] at h
  | cons p rest ih =>
      obtain ⟨k', v'⟩ := p
      rw [Registry.lookup_cons] at h
      rcases eq_or_ne k k' with hk | hk
      · rw [if_pos hk] at h
        obtain rfl : v' = v := by simpa using h
        simp [hk]
      · rw [if_neg hk] at h
        exact List.mem_cons_of_mem _ (ih h)

theorem Registry.mem_update {r : Registry} (hk : r.keys.Nodup) {k : String}
    {v : Nat} {p : String × Nat} (h : p ∈ r.update k v) :
    p = (k, v) ∨ (p ∈ r ∧ p.1 ≠ k) := by
  induction r with
  | nil =>
      rw [Registry.update] at h
      exact Or.inl (by simpa using h)
  | cons q rest ih =>
      obtain ⟨k', v'⟩ := q
      rw [Registry.keys_cons, List.nodup_cons] at hk
      rw [Registry.update] at h
      by_cases hkk : k' = k
      · rw [if_pos hkk] at h
        rcases List.mem_cons.1 h with h | h
        · exact Or.inl h
        · refine Or.inr ⟨List.mem_cons_of_mem _ h, fun hp => ?_⟩
          exact hk.1 (by rw [hkk, ← hp]; exact @Registry.mem_keys_of_mem rest p h)
      · rw [if_neg hkk] at h
        rcases List.mem_cons.1 h with h | h
        · subst h
          exact Or.inr ⟨List.mem_cons_self _ _, by simpa using hkk⟩
        · rcases ih hk.2 h with h' | h'
          · exact Or.inl h'
          · exact Or.inr ⟨List.mem_cons_of_mem _ h'.1, h'.2⟩

theorem Registry.lookup_update_self (r : Registry) (k : String) (v : Nat) :
    List.lookup k (r.update k v) = some v := by
  induction r with
  | nil => simp [Registry.update, Registry.lookup_cons]
  | cons q rest ih =>
      obtain ⟨k', v'⟩ := q
      rw [Registry.update]
      by_cases hkk : k' = k
      · rw [if_pos hkk, Registry.lookup_cons, if_pos rfl]
      · rw [if_neg hkk, Registry.lookup_cons, if_neg (Ne.symm hkk)]
        exact ih

theorem Registry.lookup_update_ne (r : Registry) {k a : String} (v : Nat)
    (h : a ≠ k) : List.lookup a (r.update k v) = List.lookup a r := by
  induction r with
  | nil =>
      show List.lookup a [(k, v)] = List.lookup a []
      rw [Registry.lookup_cons, if_neg h]
  | cons q rest ih =>
      obtain ⟨k', v'⟩ := q
      rw [Registry.update]
      by_cases hkk : k' = k
      · rw [if_pos hkk, Registry.lookup_cons, if_neg h, Registry.lookup_cons,
          if_neg (hkk ▸ h)]
      · rw [if_neg hkk, Registry.lookup_cons, Registry.lookup_cons]
        rcases eq_or_ne a k' with ha | ha
        · rw [if_pos ha, if_pos ha]
        · rw [if_neg ha, if_neg ha]
          exact ih

theorem Registry.mem_keys_update {r : Registry} {k x : String} {v : Nat} :
    x ∈ (r.update k v).keys ↔ x ∈ r.keys ∨ x = k := by
  induction r with
  | nil => simp [Registry.update, Registry.keys]
  | cons q rest ih =>
      obtain ⟨k', v'⟩ := q
      rw [Registry.update]
      by_cases hkk : k' = k
      · rw [if_pos hkk]
        subst hkk
        simp [Registry.keys_cons]
        tauto
      · rw [if_neg hkk]
        simp [Registry.keys_cons, ih]
        tauto

theorem Registry.keys_update_nodup {r : Registry} (h : r.keys.Nodup)
    (k : String) (v : Nat) : (r.update k v).keys.Nodup := by
  induction r with
  | nil => simp [Registry.update, Registry.keys]
  | cons q rest ih =>
      obtain ⟨k', v'⟩ := q
      rw [Registry.keys_cons, List.nodup_cons] at h
      rw [Registry.update]
      by_cases hkk : k' = k
      · rw [if_pos hkk, Registry.keys_cons, List.nodup_cons]
        exact ⟨by simpa [hkk] using h.1, h.2⟩
      · rw [if_neg hkk, Registry.keys_cons, List.nodup_cons]
        refine ⟨fun hc => ?_, ih h.2⟩
        rcases Registry.mem_keys_update.1 hc with hc | hc
        · exact h.1 hc
        · exact hkk hc

theorem Registry.mem_refs_update {r : Registry} {k : String} {v x : Nat}
    (h : x ∈ (r.update k v).refs) : x ∈ r.refs ∨ x = v := by
  induction r with
  | nil =>
      rw [Registry.update] at h
      exact Or.inr (by simpa [Registry.refs] using h)
  | cons q rest ih =>
      obtain ⟨k', v'⟩ := q
      rw [Registry.update] at h
      by_cases hkk : k' = k
      · rw [if_pos hkk, Registry.refs_cons] at h
        rcases List.mem_cons.1 h with h | h
        · exact Or.inr h
        · exact Or.inl (List.mem_cons_of_mem _ h)
      · rw [if_neg hkk, Registry.refs_cons] at h
        rcases List.mem_cons.1 h with h | h
        · exact Or.inl (h ▸ List.mem_cons_self _ _)
        · rcases ih h with h' | h'
          · exact Or.inl (List.mem_cons_of_mem _ h')
          · exact Or.inr h'

theorem Registry.refs_update_nodup {r : Registry} (h : r.refs.Nodup)
    {k : String} {v : Nat} (hv : v ∉ r.refs) : (r.update k v).refs.Nodup := by
  induction r with
  | nil => simp [Registry.update, Registry.refs]
  | cons q rest ih =>
      obtain ⟨k', v'⟩ := q
      rw [Registry.refs_cons, List.nodup_cons] at h
      rw [Registry.refs_cons] at hv
      have hv' : v ∉ Registry.refs rest := fun hc => hv (List.mem_cons_of_mem _ hc)
      have hvv' : v' ≠ v := fun hc => hv (hc ▸ List.mem_cons_self _ _)
      rw [Registry.update]
      by_cases hkk : k' = k
      · rw [if_pos hkk, Registry.refs_cons, List.nodup_cons]
        exact ⟨hv', h.2⟩
      · rw [if_neg hkk, Registry.refs_cons, List.nodup_cons]
        refine ⟨fun hc => ?_, ih h.2 hv'⟩
        rcases Registry.mem_refs_update hc with hc | hc
        · exact h.1 hc
        · exact hvv' hc

theorem Registry.removeKey_sublist (r : Registry) (k : String) :
    List.Sublist (r.removeKey k) r := by
  induction r with
  | nil => simp [Registry.removeKey]
  | cons q rest ih =>
      obtain ⟨k', v'⟩ := q
      rw [Registry.removeKey]
      by_cases hkk : k' = k
      · rw [if_pos hkk]
        exact List.sublist_cons_of_sublist _ (List.Sublist.refl _)
      · rw [if_neg hkk]
        exact List.Sublist.cons₂ _ ih

theorem Registry.mem_removeKey {r : Registry} {k : String} {p : String × Nat}
    (h : p ∈ r.removeKey k) : p ∈ r :=
  (Registry.removeKey_sublist r k).mem h

theorem Registry.keys_removeKey_nodup {r : Registry} (h : r.keys.Nodup)
    (k : String) : (r.removeKey k).keys.Nodup :=
  h.sublist ((Registry.removeKey_sublist r k).map Prod.fst)

theorem Registry.refs_removeKey_nodup {r : Registry} (h : r.refs.Nodup)
    (k : String) : (r.removeKey k).refs.Nodup :=
  h.sublist ((Registry.removeKey_sublist r k).map Prod.snd)

theorem Registry.mem_keys_removeKey {r : Registry} (hk : r.keys.Nodup)
    {k x : String} : x ∈ (r.removeKey k).keys ↔ x ∈ r.keys ∧ x ≠ k := by
  induction r with
  | nil => simp [Registry.removeKey, Registry.keys]
  | cons q rest ih =>
      obtain ⟨k', v'⟩ := q
      rw [Registry.keys_cons, List.nodup_cons] at hk
      rw [Registry.removeKey]
      by_cases hkk : k' = k
      · rw [if_pos hkk]
        subst hkk
        rw [Registry.keys_cons]
        constructor
        · intro hx
          exact ⟨List.mem_cons_of_mem _ hx, fun he => hk.1 (he ▸ hx)⟩
        · rintro ⟨hx, hne⟩
          rcases List.mem_cons.1 hx with h | h
          · exact absurd h hne
          · exact h
      · rw [if_neg hkk, Registry.keys_cons, Registry.keys_cons]
        constructor
        · intro hx
          rcases List.mem_cons.1 hx with h | h
          · exact ⟨h ▸ List.mem_cons_self _ _, h ▸ hkk⟩
          · have := (ih hk.2).1 h
            exact ⟨List.mem_cons_of_mem _ this.1, this.2⟩
        · rintro ⟨hx, hne⟩
          rcases List.mem_cons.1 hx with h | h
          · exact h ▸ List.mem_cons_self _ _
          · exact List.mem_cons_of_mem _ ((ih hk.2).2 ⟨h, hne⟩)

theorem Registry.keyOf_removeKey {r : Registry} (hk : r.keys.Nodup)
    {k : String} {p : String × Nat} (h : p ∈ r.removeKey k) : p.1 ≠ k :=
  ((Registry.mem_keys_removeKey hk).1 (Registry.mem_keys_of_mem h)).2

theorem Registry.eq_of_refs_nodup {r : Registry} (hr : r.refs.Nodup)
    {p q : String × Nat} (hp : p ∈ r) (hq : q ∈ r) (h : p.2 = q.2) : p = q :=
  List.inj_on_of_nodup_map hr hp hq h

theorem Registry.eq_of_keys_nodup {r : Registry} (hk : r.keys.Nodup)
    {p q : String × Nat} (hp : p ∈ r) (hq : q ∈ r) (h : p.1 = q.1) : p = q :=
  List.inj_on_of_nodup_map hk hp hq h

/-! ### Mailbox and heap lemmas -/

theorem Mailbox.enqueue_closed (m : Mailbox) (msg : String) :
    (m.enqueue msg).closed = m.closed := by
  rw [Mailbox.enqueue]
  split <;> rfl

theorem Mailbox.enqueue_cap (m : Mailbox) (msg : String) :
    (m.enqueue msg).cap = m.cap := by
  rw [Mailbox.enqueue]
  split <;> rfl

theorem Mailbox.enqueue_of_lt {m : Mailbox} (h : m.buf.length < m.cap)
    (msg : String) : m.enqueue msg = { m with buf := m.buf ++ [msg] } := by
  rw [Mailbox.enqueue, if_pos h]

theorem Mailbox.enqueue_of_full {m : Mailbox} (h : ¬ m.buf.length < m.cap)
    (msg : String) : m.enqueue msg = m := by
  rw [Mailbox.enqueue, if_neg h]

theorem Mailbox.recv_value {m : Mailbox} {v : String} {ok : Bool}
    {after : Mailbox} (h : m.recv = .value v ok after) :
    after.closed = m.closed ∧ after.cap = m.cap := by
  rw [Mailbox.recv] at h
  rcases hb : m.buf with _ | ⟨x, xs⟩ <;> rw [hb] at h
  · rcases hc : m.closed <;> rw [hc] at h
    · simp at h
    · simp at h
      rw [← h.2.2]
      exact ⟨hc, rfl⟩
  · simp at h
    rw [← h.2.2]
    exact ⟨rfl, rfl⟩

theorem heapGet_set_self {h : List Mailbox} {i : Nat} (hi : i < h.length)
    (m : Mailbox) : (h.set i m).getD i default = m := by
  rw [List.getD_eq_getElem?_getD, List.getElem?_set_self hi, Option.getD_some]

theorem heapGet_set_ne {h : List Mailbox} {i j : Nat} (hij : i ≠ j)
    (m : Mailbox) : (h.set i m).getD j default = h.getD j default := by
  rw [List.getD_eq_getElem?_getD, List.getElem?_set_ne hij,
    ← List.getD_eq_getElem?_getD]

theorem heapGet_append_left {h : List Mailbox} (t : List Mailbox) {i : Nat}
    (hi : i < h.length) : (h ++ t).getD i default = h.getD i default := by
  rw [List.getD_eq_getElem?_getD, List.getElem?_append_left hi,
    ← List.getD_eq_getElem?_getD]

theorem heapGet_append_length (h : List Mailbox) (m : Mailbox) :
    (h ++ [m]).getD h.length default = m := by
  rw [List.getD_eq_getElem?_getD, List.getElem?_concat_length, Option.getD_some]

/-! ### Broadcast lemmas -/

theorem broadcastHeap_length (r : Registry) (h : List Mailbox)
    (sid msg : String) : (broadcastHeap r h sid msg).length = h.length := by
  induction r generalizing h with
  | nil => rfl
  | cons q rest ih =>
      obtain ⟨id, ref⟩ := q
      rw [broadcastHeap]
      by_cases hid : id = sid
      · rw [if_pos hid]
        exact ih h
      · rw [if_neg hid, ih, List.length_set]

/-- A heap position referenced by no non-sender registry entry is left
untouched by the broadcast walk. -/
theorem broadcastHeap_frame {r : Registry} {i : Nat} {sid : String}
    (hi : ∀ p ∈ r, p.1 ≠ sid → p.2 ≠ i) (h : List Mailbox) (msg : String) :
    (broadcastHeap r h sid msg).getD i default = h.getD i default := by
  induction r generalizing h with
  | nil => rfl
  | cons q rest ih =>
      obtain ⟨id, ref⟩ := q
      rw [broadcastHeap]
      by_cases hid : id = sid
      · rw [if_pos hid]
        exact ih (fun p hp => hi p (List.mem_cons_of_mem _ hp)) h
      · rw [if_neg hid]
        have hri : ref ≠ i := hi (id, ref) (List.mem_cons_self _ _) hid
        rw [ih (fun p hp => hi p (List.mem_cons_of_mem _ hp)),
          heapGet_set_ne hri]

/-- The broadcast walk performs exactly one non-blocking send into the
mailbox of each registered participant other than the sender. -/
theorem broadcastHeap_recipient {r : Registry} (hk : r.keys.Nodup)
    (hr : r.refs.Nodup) {b sid : String} {rb : Nat} (hmem : (b, rb) ∈ r)
    (hb : b ≠ sid) {h : List Mailbox} (hlen : rb < h.length) (msg : String) :
    (broadcastHeap r h sid msg).getD rb default
      = (h.getD rb default).enqueue msg := by
  induction r generalizing h with
  | nil => cases hmem
  | cons q rest ih =>
      obtain ⟨id, ref⟩ := q
      rw [Registry.keys_cons, List.nodup_cons] at hk
      rw [Registry.refs_cons, List.nodup_cons] at hr
      rcases List.mem_cons.1 hmem with heq | hmem'
      · obtain ⟨rfl, rfl⟩ : b = id ∧ rb = ref := by
          simpa [Prod.ext_iff] using heq
        have hframe : ∀ p ∈ rest, p.1 ≠ sid → p.2 ≠ rb := by
          intro p hp _ hpe
          apply hr.1
          rw [← hpe]
          exact @Registry.mem_refs_of_mem rest p hp
        rw [broadcastHeap, if_neg hb, broadcastHeap_frame hframe,
          heapGet_set_self hlen]
      · have hrefrb : ref ≠ rb := by
          intro hc
          apply hr.1
          rw [hc]
          exact @Registry.mem_refs_of_mem rest (b, rb) hmem'
        rw [broadcastHeap]
        by_cases hid : id = sid
        · rw [if_pos hid]
          exact ih hk.2 hr.2 hmem' hlen
        · rw [if_neg hid]
          rw [ih hk.2 hr.2 hmem'
            (show rb < (h.set ref ((h.getD ref default).enqueue msg)).length by
              rw [List.length_set]; exact hlen)]
          rw [heapGet_set_ne hrefrb]

theorem heapGet_set_enqueue_closed_cap (h : List Mailbox) (ref i : Nat)
    (msg : String) :
    (((h.set ref ((h.getD ref default).enqueue msg)).getD i default).closed
        = (h.getD i default).closed) ∧
    (((h.set ref ((h.getD ref default).enqueue msg)).getD i default).cap
        = (h.getD i default).cap) := by
  by_cases hir : ref = i
  · subst hir
    by_cases hl : ref < h.length
    · rw [heapGet_set_self hl]
      exact ⟨Mailbox.enqueue_closed _ _, Mailbox.enqueue_cap _ _⟩
    · rw [List.set_eq_of_length_le (Nat.le_of_not_lt hl)]
      exact ⟨rfl, rfl⟩
  · rw [heapGet_set_ne hir]
    exact ⟨rfl, rfl⟩

/-- The broadcast walk never changes the closed flag or the capacity of
any mailbox: it only ever appends to buffers. -/
theorem broadcastHeap_closed_cap (r : Registry) (h : List Mailbox)
    (sid msg : String) (i : Nat) :
    (((broadcastHeap r h sid msg).getD i default).closed
        = (h.getD i default).closed) ∧
    (((broadcastHeap r h sid msg).getD i default).cap
        = (h.getD i default).cap) := by
  induction r generalizing h with
  | nil => exact ⟨rfl, rfl⟩
  | cons q rest ih =>
      obtain ⟨id, ref⟩ := q
      rw [broadcastHeap]
      by_cases hid : id = sid
      · rw [if_pos hid]
        exact ih h
      · rw [if_neg hid]
        have h1 := ih (h.set ref ((h.getD ref default).enqueue msg))
        have h2 := heapGet_set_enqueue_closed_cap h ref i msg
        exact ⟨h1.1.trans h2.1, h1.2.trans h2.2⟩

/-! ### State-level unfolding lemmas -/

theorem ChatServer.clients_broadcast (s : ChatServer) (sid msg : String) :
    (s.broadcastToOthers sid msg).clients = s.clients := rfl

theorem ChatServer.mbox_broadcast (s : ChatServer) (sid msg : String)
    (i : Nat) :
    (s.broadcastToOthers sid msg).mbox i
      = (broadcastHeap s.clients s.heap sid msg).getD i default := rfl

theorem ChatServer.heapLength_broadcast (s : ChatServer) (sid msg : String) :
    (s.broadcastToOthers sid msg).heap.length = s.heap.length :=
  broadcastHeap_length _ _ _ _

/-! ### Preservation of the structural invariant -/

theorem GoodState.broadcast {s : ChatServer} (hG : GoodState s)
    (sid msg : String) : GoodState (s.broadcastToOthers sid msg) := by
  obtain ⟨hk, hr, hm⟩ := hG
  refine ⟨hk, hr, ?_⟩
  intro p hp
  rw [ChatServer.clients_broadcast] at hp
  obtain ⟨h1, h2, h3⟩ := hm p hp
  have hcc := broadcastHeap_closed_cap s.clients s.heap sid msg p.2
  refine ⟨?_, ?_, ?_⟩
  · rw [ChatServer.heapLength_broadcast]
    exact h1
  · rw [ChatServer.mbox_broadcast]
    rw [ChatServer.mbox] at h2
    exact hcc.1.trans h2
  · rw [ChatServer.mbox_broadcast]
    rw [ChatServer.mbox] at h3
    exact hcc.2.trans h3

theorem GoodState.init : GoodState initServer := by
  refine ⟨List.nodup_nil, List.nodup_nil, ?_⟩
  intro p hp
  cases hp

theorem GoodState.join {s : ChatServer} (hG : GoodState s) (id : String) :
    GoodState (s.Join id).1 := by
  obtain ⟨hk, hr, hm⟩ := hG
  refine GoodState.broadcast ⟨?_, ?_, ?_⟩ _ _
  · exact Registry.keys_update_nodup hk _ _
  · refine Registry.refs_update_nodup hr ?_
    intro hc
    rcases List.mem_map.1 hc with ⟨p, hp, hpe⟩
    exact absurd ((hm p hp).1) (by rw [hpe]; exact Nat.lt_irrefl _)
  · intro p hp
    rcases Registry.mem_update hk hp with rfl | ⟨hp', _⟩
    · refine ⟨?_, ?_, ?_⟩
      · show s.heap.length < (s.heap ++ [newMailbox]).length
        simp
      · show ((s.heap ++ [newMailbox]).getD s.heap.length default).closed = false
        rw [heapGet_append_length]
        rfl
      · show ((s.heap ++ [newMailbox]).getD s.heap.length default).cap = 10
        rw [heapGet_append_length]
        rfl
    · obtain ⟨h1, h2, h3⟩ := hm p hp'
      refine ⟨?_, ?_, ?_⟩
      · show p.2 < (s.heap ++ [newMailbox]).length
        rw [List.length_append]
        omega
      · show ((s.heap ++ [newMailbox]).getD p.2 default).closed = false
        rw [heapGet_append_left _ h1]
        exact h2
      · show ((s.heap ++ [newMailbox]).getD p.2 default).cap = 10
        rw [heapGet_append_left _ h1]
        exact h3

theorem GoodState.send {s : ChatServer} (hG : GoodState s) (m : Message) :
    GoodState (s.SendMessage m).1 :=
  hG.broadcast _ _

theorem GoodState.leave {s : ChatServer} (hG : GoodState s) (id : String) :
    GoodState (s.Leave id).1 := by
  obtain ⟨hk, hr, hm⟩ := hG
  rcases hlook : List.lookup id s.clients with _ | ref
  · have : (s.Leave id).1
        = s.broadcastToOthers id ("📢 User " ++ id ++ " left") := by
      rw [ChatServer.Leave, hlook]
    rw [this]
    exact GoodState.broadcast ⟨hk, hr, hm⟩ _ _
  · have hmem : (id, ref) ∈ s.clients := Registry.lookup_mem hlook
    have : (s.Leave id).1
        = ({ clients := s.clients.removeKey id,
             heap := s.heap.set ref (s.mbox ref).closeBox } :
            ChatServer).broadcastToOthers id ("📢 User " ++ id ++ " left") := by
      rw [ChatServer.Leave, hlook]
    rw [this]
    refine GoodState.broadcast ⟨?_, ?_, ?_⟩ _ _
    · exact Registry.keys_removeKey_nodup hk _
    · exact Registry.refs_removeKey_nodup hr _
    · intro p hp
      have hp' : p ∈ s.clients := Registry.mem_removeKey hp
      obtain ⟨h1, h2, h3⟩ := hm p hp'
      have hpr : p.2 ≠ ref := by
        intro hc
        have : p = (id, ref) :=
          Registry.eq_of_refs_nodup hr hp' hmem hc
        exact Registry.keyOf_removeKey hk hp (by rw [this])
      refine ⟨?_, ?_, ?_⟩
      · show p.2 < (s.heap.set ref (s.mbox ref).closeBox).length
        rw [List.length_set]
        exact h1
      · show ((s.heap.set ref (s.mbox ref).closeBox).getD p.2 default).closed
            = false
        rw [heapGet_set_ne (Ne.symm hpr)]
        exact h2
      · show ((s.heap.set ref (s.mbox ref).closeBox).getD p.2 default).cap = 10
        rw [heapGet_set_ne (Ne.symm hpr)]
        exact h3

theorem GoodState.poll {s : ChatServer} (hG : GoodState s) (id : String) :
    GoodState (s.GetMessages id).1 := by
  obtain ⟨hk, hr, hm⟩ := hG
  rcases hlook : List.lookup id s.clients with _ | ref
  · have : (s.GetMessages id).1 = s := by
      simp only [ChatServer.GetMessages, hlook]
    rw [this]
    exact ⟨hk, hr, hm⟩
  · have hmem : (id, ref) ∈ s.clients := Registry.lookup_mem hlook
    rcases hrecv : (s.mbox ref).recv with ⟨v, ok, after⟩ | _
    · have : (s.GetMessages id).1 = { s with heap := s.heap.set ref after } := by
        simp only [ChatServer.GetMessages, hlook, hrecv]
      rw [this]
      obtain ⟨hcl, hca⟩ := Mailbox.recv_value hrecv
      refine ⟨hk, hr, ?_⟩
      intro p hp
      obtain ⟨h1, h2, h3⟩ := hm p hp
      obtain ⟨hi1, hi2, hi3⟩ := hm (id, ref) hmem
      refine ⟨?_, ?_, ?_⟩
      · show p.2 < (s.heap.set ref after).length
        rw [List.length_set]
        exact h1
      · show ((s.heap.set ref after).getD p.2 default).closed = false
        by_cases hpr : ref = p.2
        · rw [← hpr, heapGet_set_self hi1, hcl]
          exact hi2
        · rw [heapGet_set_ne hpr]
          exact h2
      · show ((s.heap.set ref after).getD p.2 default).cap = 10
        by_cases hpr : ref = p.2
        · rw [← hpr, heapGet_set_self hi1, hca]
          exact hi3
        · rw [heapGet_set_ne hpr]
          exact h3
    · have : (s.GetMessages id).1 = s := by
        simp only [ChatServer.GetMessages, hlook, hrecv]
      rw [this]
      exact ⟨hk, hr, hm⟩

/-- Every state reachable by the four RPC operations satisfies the
structural invariant. -/
theorem reachable_good {s : ChatServer} (h : Reachable s) : GoodState s := by
  induction h with
  | init => exact GoodState.init
  | join s id _ ih => exact ih.join id
  | send s m _ ih => exact ih.send m
  | leave s id _ ih => exact ih.leave id
  | poll s id _ ih => exact ih.poll id

theorem ChatServer.mbox_def (s : ChatServer) (i : Nat) :
    s.mbox i = s.heap.getD i default := rfl

/-- The mailbox of a participant other than the sender, registered with
a valid reference, receives exactly one non-blocking send from a
broadcast. -/
theorem mbox_broadcast_recipient {s : ChatServer} (hG : GoodState s)
    {b sid : String} {rb : Nat} (hb : List.lookup b s.clients = some rb)
    (hbs : b ≠ sid) (msg : String) :
    (s.broadcastToOthers sid msg).mbox rb = (s.mbox rb).enqueue msg := by
  obtain ⟨hk, hr, hm⟩ := hG
  have hbmem : (b, rb) ∈ s.clients := Registry.lookup_mem hb
  rw [ChatServer.mbox_broadcast, ChatServer.mbox_def,
    broadcastHeap_recipient hk hr hbmem hbs (hm (b, rb) hbmem).1]

/-- The sender's own mailbox is never touched by a broadcast. -/
theorem mbox_broadcast_sender {s : ChatServer} (hG : GoodState s)
    {a : String} {ra : Nat} (ha : List.lookup a s.clients = some ra)
    (msg : String) :
    (s.broadcastToOthers a msg).mbox ra = s.mbox ra := by
  obtain ⟨hk, hr, hm⟩ := hG
  have hamem : (a, ra) ∈ s.clients := Registry.lookup_mem ha
  rw [ChatServer.mbox_broadcast, ChatServer.mbox_def]
  apply broadcastHeap_frame
  intro p hp hpa hpe
  have hpeq : p = (a, ra) := Registry.eq_of_refs_nodup hr hp hamem hpe
  exact hpa (by rw [hpeq])

/-! ### Claim C1 -/

/-- C1 counterexample: with only `"B"` registered, a Post from the
unregistered id `"A"` does NOT return a not-found error — the returned
`error` is `nil` and the reply is the normal acknowledgement — and the
message IS broadcast: `"[A]: hi"` lands in B's mailbox (heap cell 0).
This falsifies the claim that an unregistered sender gets an
UnknownParticipant error and that nothing is broadcast. -/
theorem C1_counterexample :
    List.lookup "A" ((initServer.Join "B").1).clients = none ∧
    (((initServer.Join "B").1).SendMessage ⟨"A", "hi"⟩).2.1 = none ∧
    ((((initServer.Join "B").1).SendMessage ⟨"A", "hi"⟩).1.mbox 0).buf
      = ["[A]: hi"] := by
  decide

/-- C1 (amended): `SendMessage` performs no registration check at all.
For every state and every sender id — registered or not — it returns a
`nil` error together with the normal acknowledgement (so no
UnknownParticipant error is ever returned by Post), and it still
broadcasts `"[id]: content"`: every registered participant other than
the sender whose mailbox is below capacity receives it. -/
theorem C1_amended_post_never_validates (s : ChatServer) (hG : GoodState s)
    (a m : String)
    (b : String) (rb : Nat) (hb : List.lookup b s.clients = some rb)
    (hab : b ≠ a) (hcap : (s.mbox rb).buf.length < 10) :
    (s.SendMessage ⟨a, m⟩).2.1 = none ∧
    (s.SendMessage ⟨a, m⟩).2.2 = ⟨a, "message_received"⟩ ∧
    ((s.SendMessage ⟨a, m⟩).1.mbox rb).buf
      = (s.mbox rb).buf ++ ["[" ++ a ++ "]: " ++ m] := by
  have hbmem : (b, rb) ∈ s.clients := Registry.lookup_mem hb
  refine ⟨rfl, rfl, ?_⟩
  show ((s.broadcastToOthers a ("[" ++ a ++ "]: " ++ m)).mbox rb).buf = _
  rw [mbox_broadcast_recipient hG hb hab]
  rw [Mailbox.enqueue_of_lt (by rw [(hG.2.2 (b, rb) hbmem).2.2]; exact hcap)]

/-- Witness for the amended C1 at the concrete state with only `"B"`
joined and sender `"A"` unregistered. -/
theorem C1_amended_post_never_validates_witness :
    ((initServer.Join "B").1.SendMessage ⟨"A", "hi"⟩).2.1 = none ∧
    ((initServer.Join "B").1.SendMessage ⟨"A", "hi"⟩).2.2
      = ⟨"A", "message_received"⟩ ∧
    (((initServer.Join "B").1.SendMessage ⟨"A", "hi"⟩).1.mbox 0).buf
      = ((initServer.Join "B").1.mbox 0).buf ++ ["[" ++ "A" ++ "]: " ++ "hi"] :=
  C1_amended_post_never_validates (initServer.Join "B").1 (by decide) "A"
    "hi" "B" 0 (by decide) (by decide) (by decide)

/-! ### Claim C2 -/

/-- C2: for distinct registered participants `a` and `b`, a Post from
`a` appends exactly one message, formatted `"[a]: m"`, to `b`'s mailbox
(when `b`'s mailbox is below its capacity of 10) and leaves `a`'s own
mailbox completely untouched. -/
theorem C2_post_delivers_to_others_only (s : ChatServer) (hG : GoodState s)
    (a b : String) (ra rb : Nat) (m : String)
    (ha : List.lookup a s.clients = some ra)
    (hb : List.lookup b s.clients = some rb) (hab : a ≠ b)
    (hcap : (s.mbox rb).buf.length < 10) :
    ((s.SendMessage ⟨a, m⟩).1.mbox rb).buf
      = (s.mbox rb).buf ++ ["[" ++ a ++ "]: " ++ m] ∧
    (s.SendMessage ⟨a, m⟩).1.mbox ra = s.mbox ra := by
  have hbmem : (b, rb) ∈ s.clients := Registry.lookup_mem hb
  constructor
  · show ((s.broadcastToOthers a ("[" ++ a ++ "]: " ++ m)).mbox rb).buf = _
    rw [mbox_broadcast_recipient hG hb (Ne.symm hab)]
    rw [Mailbox.enqueue_of_lt (by rw [(hG.2.2 (b, rb) hbmem).2.2]; exact hcap)]
  · show (s.broadcastToOthers a ("[" ++ a ++ "]: " ++ m)).mbox ra = s.mbox ra
    exact mbox_broadcast_sender hG ha _

/-- Witness for C2 in the end-to-end scenario Join("A"); Join("B");
Post("A","hi"): B's mailbox (heap cell 1) receives exactly `"[A]: hi"`
and A's mailbox (heap cell 0) is unchanged. -/
theorem C2_post_delivers_to_others_only_witness :
    ((((initServer.Join "A").1.Join "B").1.SendMessage ⟨"A", "hi"⟩).1.mbox 1).buf
      = (((initServer.Join "A").1.Join "B").1.mbox 1).buf
          ++ ["[" ++ "A" ++ "]: " ++ "hi"] ∧
    (((initServer.Join "A").1.Join "B").1.SendMessage ⟨"A", "hi"⟩).1.mbox 0
      = ((initServer.Join "A").1.Join "B").1.mbox 0 :=
  C2_post_delivers_to_others_only ((initServer.Join "A").1.Join "B").1
    (by decide) "A" "B" 0 1 "hi" (by decide) (by decide) (by decide) (by decide)

/-! ### Claim C3 -/

/-- C3 counterexample: after Join("A"); Join("B"); Leave("B"), a second
Leave("B") returns no error and removes nothing — but it broadcasts the
leave notice AGAIN: A's mailbox, which held one copy of
`"📢 User B left"` after the first call, holds two copies after the
second.  This falsifies the claim that the second call produces no
leave-notice broadcast effects beyond those of the first. -/
theorem C3_counterexample :
    ((((initServer.Join "A").1.Join "B").1.Leave "B").1.Leave "B").2.1
      = none ∧
    ((((initServer.Join "A").1.Join "B").1.Leave "B").1.Leave "B").1.clients
      = (((initServer.Join "A").1.Join "B").1.Leave "B").1.clients ∧
    ((((initServer.Join "A").1.Join "B").1.Leave "B").1.mbox 0).buf
      = ["📢 User B joined", "📢 User B left"] ∧
    (((((initServer.Join "A").1.Join "B").1.Leave "B").1.Leave "B").1.mbox 0).buf
      = ["📢 User B joined", "📢 User B left", "📢 User B left"] := by
  decide

/-- C3 (amended): a second `Leave(id)` directly after a first returns no
error and removes nothing further from the Registry, but it is NOT
effect-free: it broadcasts the leave notice again, appending a duplicate
`"📢 User id left"` to the mailbox of every remaining registered
participant whose mailbox is below capacity. -/
theorem C3_amended_second_leave_rebroadcasts (s : ChatServer)
    (hG : GoodState s) (id : String)
    (hid : List.lookup id s.clients = none)
    (b : String) (rb : Nat) (hb : List.lookup b s.clients = some rb)
    (hcap : (s.mbox rb).buf.length < 10) :
    (s.Leave id).2.1 = none ∧
    (s.Leave id).1.clients = s.clients ∧
    ((s.Leave id).1.mbox rb).buf
      = (s.mbox rb).buf ++ ["📢 User " ++ id ++ " left"] := by
  have hbmem : (b, rb) ∈ s.clients := Registry.lookup_mem hb
  have hbid : b ≠ id := by
    intro hc
    rw [Registry.lookup_eq_none] at hid
    exact hid (hc ▸ Registry.mem_keys_of_mem hbmem)
  have hstate : (s.Leave id).1
      = s.broadcastToOthers id ("📢 User " ++ id ++ " left") := by
    rw [ChatServer.Leave, hid]
  refine ⟨rfl, ?_, ?_⟩
  · rw [hstate, ChatServer.clients_broadcast]
  · rw [hstate, mbox_broadcast_recipient hG hb hbid]
    rw [Mailbox.enqueue_of_lt (by rw [(hG.2.2 (b, rb) hbmem).2.2]; exact hcap)]

/-- Witness for the amended C3: the second Leave("B") after
Join("A"); Join("B"); Leave("B") re-appends the leave notice to A's
mailbox. -/
theorem C3_amended_second_leave_rebroadcasts_witness :
    (((((initServer.Join "A").1.Join "B").1.Leave "B").1).Leave "B").2.1
      = none ∧
    (((((initServer.Join "A").1.Join "B").1.Leave "B").1).Leave "B").1.clients
      = ((((initServer.Join "A").1.Join "B").1.Leave "B").1).clients ∧
    ((((((initServer.Join "A").1.Join "B").1.Leave "B").1).Leave "B").1.mbox 0).buf
      = (((((initServer.Join "A").1.Join "B").1.Leave "B").1).mbox 0).buf
          ++ ["📢 User " ++ "B" ++ " left"] :=
  C3_amended_second_leave_rebroadcasts
    (((initServer.Join "A").1.Join "B").1.Leave "B").1 (by decide) "B"
    (by decide) "A" 0 (by decide) (by decide)

/-! ### Claim C10 -/

/-- C10: the acknowledgement of Post is independent of the Hub's state:
for every message, `SendMessage` run against any two states returns the
identical reply — the sender's id echoed with the fixed content
`"message_received"` and a `nil` error — revealing nothing about
registry membership or delivery outcome. -/
theorem C10_reply_independent_of_state (s t : ChatServer) (msg : Message) :
    (s.SendMessage msg).2 = (t.SendMessage msg).2 ∧
    (s.SendMessage msg).2.2 = ⟨msg.ClientID, "message_received"⟩ ∧
    (s.SendMessage msg).2.1 = none :=
  ⟨rfl, rfl, rfl⟩

/-! ### Claim C4 -/

/-- C4: every registered mailbox has capacity exactly 10; a broadcast
reaching a recipient whose mailbox already holds 10 messages drops the
message and leaves that mailbox unchanged, while delivery to the other
recipients still happens, and the posting caller receives no error. -/
theorem C4_full_mailbox_drops_without_error (s : ChatServer)
    (hG : GoodState s) (a b c : String) (rb rc : Nat) (m : String)
    (hb : List.lookup b s.clients = some rb) (hba : b ≠ a)
    (hfull : (s.mbox rb).buf.length = 10)
    (hc : List.lookup c s.clients = some rc) (hca : c ≠ a) (hcb : c ≠ b)
    (hcap : (s.mbox rc).buf.length < 10) :
    (s.mbox rb).cap = 10 ∧
    (s.SendMessage ⟨a, m⟩).1.mbox rb = s.mbox rb ∧
    ((s.SendMessage ⟨a, m⟩).1.mbox rc).buf
      = (s.mbox rc).buf ++ ["[" ++ a ++ "]: " ++ m] ∧
    (s.SendMessage ⟨a, m⟩).2.1 = none := by
  have hbmem : (b, rb) ∈ s.clients := Registry.lookup_mem hb
  have hcmem : (c, rc) ∈ s.clients := Registry.lookup_mem hc
  have hbcap : (s.mbox rb).cap = 10 := (hG.2.2 (b, rb) hbmem).2.2
  refine ⟨hbcap, ?_, ?_, rfl⟩
  · show (s.broadcastToOthers a ("[" ++ a ++ "]: " ++ m)).mbox rb = s.mbox rb
    rw [mbox_broadcast_recipient hG hb hba]
    exact Mailbox.enqueue_of_full (by rw [hfull, hbcap]; omega) _
  · show ((s.broadcastToOthers a ("[" ++ a ++ "]: " ++ m)).mbox rc).buf = _
    rw [mbox_broadcast_recipient hG hc hca]
    rw [Mailbox.enqueue_of_lt (by rw [(hG.2.2 (c, rc) hcmem).2.2]; exact hcap)]

/-- Witness for C4 at `fullBState`: B's mailbox is full (10 entries, the
capacity), so A's post is dropped for B, still delivered to C, and A
gets no error. -/
theorem C4_full_mailbox_drops_without_error_witness :
    (fullBState.mbox 1).cap = 10 ∧
    (fullBState.SendMessage ⟨"A", "hi"⟩).1.mbox 1 = fullBState.mbox 1 ∧
    ((fullBState.SendMessage ⟨"A", "hi"⟩).1.mbox 2).buf
      = (fullBState.mbox 2).buf ++ ["[" ++ "A" ++ "]: " ++ "hi"] ∧
    (fullBState.SendMessage ⟨"A", "hi"⟩).2.1 = none :=
  C4_full_mailbox_drops_without_error fullBState (by decide) "A" "B" "C" 1 2
    "hi" (by decide) (by decide) (by decide) (by decide) (by decide)
    (by decide) (by decide)

/-! ### Join helper lemmas -/

theorem join_clients (s : ChatServer) (id : String) :
    (s.Join id).1.clients = s.clients.update id s.heap.length := rfl

theorem join_err (s : ChatServer) (id : String) : (s.Join id).2.1 = none := rfl

theorem join_reply (s : ChatServer) (id : String) :
    (s.Join id).2.2 = ⟨id⟩ := rfl

/-- After a Join, the heap cell of the freshly allocated mailbox holds
exactly `newMailbox`: the join-notice broadcast excludes the joiner
itself and every other registered entry references an older cell. -/
theorem join_mbox_fresh {s : ChatServer} (hG : GoodState s) (id : String) :
    (s.Join id).1.mbox s.heap.length = newMailbox := by
  obtain ⟨hk, _, hm⟩ := hG
  have hframe : ∀ p ∈ s.clients.update id s.heap.length,
      p.1 ≠ id → p.2 ≠ s.heap.length := by
    intro p hp hpid
    rcases Registry.mem_update hk hp with rfl | ⟨hp', _⟩
    · exact absurd rfl hpid
    · exact Nat.ne_of_lt (hm p hp').1
  have hrw : (s.Join id).1.mbox s.heap.length
      = (broadcastHeap (s.clients.update id s.heap.length)
          (s.heap ++ [newMailbox]) id
          ("📢 User " ++ id ++ " joined")).getD s.heap.length default := rfl
  rw [hrw, broadcastHeap_frame hframe, heapGet_append_length]

/-- After a Join by `id`, any heap cell referenced by a pre-existing
entry for `id` itself is untouched: the join-notice broadcast skips the
joiner and no other registered entry aliases that cell. -/
theorem join_mbox_old {s : ChatServer} (hG : GoodState s) {id : String}
    {r0 : Nat} (hmem : (id, r0) ∈ s.clients) :
    (s.Join id).1.mbox r0 = s.mbox r0 := by
  obtain ⟨hk, hr, hm⟩ := hG
  have hframe : ∀ p ∈ s.clients.update id s.heap.length,
      p.1 ≠ id → p.2 ≠ r0 := by
    intro p hp hpid
    rcases Registry.mem_update hk hp with rfl | ⟨hp', _⟩
    · exact absurd rfl hpid
    · intro hc
      have hpeq : p = (id, r0) := Registry.eq_of_refs_nodup hr hp' hmem hc
      exact hpid (by rw [hpeq])
  have hrw : (s.Join id).1.mbox r0
      = (broadcastHeap (s.clients.update id s.heap.length)
          (s.heap ++ [newMailbox]) id
          ("📢 User " ++ id ++ " joined")).getD r0 default := rfl
  rw [hrw, broadcastHeap_frame hframe, heapGet_append_left _ (hm _ hmem).1]
  rfl

/-! ### Claim C5 -/

/-- C5: a second Join for an already-registered id replaces the Registry
entry with a reference to a fresh empty mailbox (last-write-wins), while
the previous mailbox's heap cell is left completely untouched: it is not
closed and its pending messages are neither delivered nor discarded. -/
theorem C5_rejoin_overwrites_without_closing (s : ChatServer)
    (hG : GoodState s) (id : String) (r0 : Nat)
    (h : List.lookup id s.clients = some r0) :
    List.lookup id (s.Join id).1.clients = some s.heap.length ∧
    (s.Join id).1.mbox s.heap.length = newMailbox ∧
    (s.Join id).1.mbox r0 = s.mbox r0 ∧
    ((s.Join id).1.mbox r0).closed = false ∧
    s.heap.length ≠ r0 := by
  have hmem : (id, r0) ∈ s.clients := Registry.lookup_mem h
  have hold : (s.Join id).1.mbox r0 = s.mbox r0 := join_mbox_old hG hmem
  refine ⟨?_, join_mbox_fresh hG id, hold, ?_, ?_⟩
  · rw [join_clients]
    exact Registry.lookup_update_self _ _ _
  · rw [hold]
    exact (hG.2.2 (id, r0) hmem).2.1
  · exact (Nat.ne_of_lt (hG.2.2 (id, r0) hmem).1).symm

/-- Witness for C5: after Join("A"), a second Join("A") maps "A" to the
fresh cell 1 while cell 0 keeps its (open, empty) old mailbox. -/
theorem C5_rejoin_overwrites_without_closing_witness :
    List.lookup "A" ((initServer.Join "A").1.Join "A").1.clients = some 1 ∧
    ((initServer.Join "A").1.Join "A").1.mbox 1 = newMailbox ∧
    ((initServer.Join "A").1.Join "A").1.mbox 0
      = (initServer.Join "A").1.mbox 0 ∧
    (((initServer.Join "A").1.Join "A").1.mbox 0).closed = false ∧
    (1 : Nat) ≠ 0 :=
  C5_rejoin_overwrites_without_closing (initServer.Join "A").1 (by decide)
    "A" 0 (by decide)

/-! ### Claim C9 -/

/-- C9: `Join` returns an acknowledgement echoing the id and never
returns an error — so in particular it fails only if the id is empty
(vacuously: it does not fail even then), every id (hence every non-empty
id) is registered with a fresh capacity-10 mailbox, and an overwrite of
an existing Registry entry is not treated as an error either. -/
theorem C9_join_acknowledges_and_registers (s : ChatServer)
    (hG : GoodState s) (id : String) :
    (s.Join id).2.1 = none ∧
    ((s.Join id).2.1 ≠ none → id = "") ∧
    (s.Join id).2.2 = ⟨id⟩ ∧
    List.lookup id (s.Join id).1.clients = some s.heap.length ∧
    (s.Join id).1.mbox s.heap.length = newMailbox := by
  refine ⟨join_err s id, ?_, join_reply s id, ?_, join_mbox_fresh hG id⟩
  · intro hc
    exact absurd (join_err s id) hc
  · rw [join_clients]
    exact Registry.lookup_update_self _ _ _

/-- Witness for C9 at the empty server and the id "A" (and, for the
overwrite clause, the fresh registration succeeds from any state, here
the initial one). -/
theorem C9_join_acknowledges_and_registers_witness :
    (initServer.Join "A").2.1 = none ∧
    ((initServer.Join "A").2.1 ≠ none → "A" = "") ∧
    (initServer.Join "A").2.2 = ⟨"A"⟩ ∧
    List.lookup "A" (initServer.Join "A").1.clients = some 0 ∧
    (initServer.Join "A").1.mbox 0 = newMailbox :=
  C9_join_acknowledges_and_registers initServer (by decide) "A"

/-! ### Claim C6 -/

/-- C6: in every reachable state the Registry keys are exactly the
currently joined participants, each key holding one valid mailbox
reference; and across the four operations, only Join adds a key (its
own), only Leave removes one (its own), while Post and PollOne leave the
key set unchanged. -/
theorem C6_registry_tracks_membership (s : ChatServer) (h : Reachable s) :
    (s.clients.keys.Nodup ∧ ∀ p ∈ s.clients, p.2 < s.heap.length) ∧
    (∀ id x, x ∈ (s.Join id).1.clients.keys
      ↔ (x ∈ s.clients.keys ∨ x = id)) ∧
    (∀ id x, x ∈ (s.Leave id).1.clients.keys
      ↔ (x ∈ s.clients.keys ∧ x ≠ id)) ∧
    (∀ m, (s.SendMessage m).1.clients = s.clients) ∧
    (∀ id, (s.GetMessages id).1.clients = s.clients) := by
  obtain ⟨hk, hr, hm⟩ := reachable_good h
  refine ⟨⟨hk, fun p hp => (hm p hp).1⟩, ?_, ?_, ?_, ?_⟩
  · intro id x
    rw [join_clients]
    exact Registry.mem_keys_update
  · intro id x
    rcases hlook : List.lookup id s.clients with _ | ref
    · have hstate : (s.Leave id).1.clients = s.clients := by
        rw [ChatServer.Leave, hlook]
        rfl
      rw [hstate]
      have hid : id ∉ s.clients.keys := Registry.lookup_eq_none.1 hlook
      constructor
      · intro hx
        exact ⟨hx, fun hc => hid (hc ▸ hx)⟩
      · exact fun hx => hx.1
    · have hstate : (s.Leave id).1.clients = s.clients.removeKey id := by
        rw [ChatServer.Leave, hlook]
        rfl
      rw [hstate]
      exact Registry.mem_keys_removeKey hk
  · intro m
    rfl
  · intro id
    rcases hlook : List.lookup id s.clients with _ | ref
    · simp only [ChatServer.GetMessages, hlook]
    · rcases hrecv : (s.mbox ref).recv with ⟨v, ok, after⟩ | _ <;>
        simp only [ChatServer.GetMessages, hlook, hrecv]

/-- Witness for C6 at the reachable state Join("A") applied to the
freshly started server. -/
theorem C6_registry_tracks_membership_witness :
    (((initServer.Join "A").1.clients.keys.Nodup ∧
      ∀ p ∈ (initServer.Join "A").1.clients,
        p.2 < (initServer.Join "A").1.heap.length) ∧
    (∀ id x, x ∈ ((initServer.Join "A").1.Join id).1.clients.keys
      ↔ (x ∈ (initServer.Join "A").1.clients.keys ∨ x = id)) ∧
    (∀ id x, x ∈ ((initServer.Join "A").1.Leave id).1.clients.keys
      ↔ (x ∈ (initServer.Join "A").1.clients.keys ∧ x ≠ id)) ∧
    (∀ m, ((initServer.Join "A").1.SendMessage m).1.clients
      = (initServer.Join "A").1.clients) ∧
    (∀ id, ((initServer.Join "A").1.GetMessages id).1.clients
      = (initServer.Join "A").1.clients)) :=
  C6_registry_tracks_membership (initServer.Join "A").1
    (Reachable.join initServer "A" Reachable.init)

/-! ### Claim C7 -/

/-- C7: `GetMessages` (PollOne) returns the request-level error
`"client <id> not found"` and changes nothing when the id is absent from
the Registry; for a registered id it blocks when the mailbox is empty,
and otherwise returns exactly the one oldest pending message, removing
it from that mailbox and leaving the Registry unchanged. -/
theorem C7_pollone_semantics (s : ChatServer) (hG : GoodState s)
    (id : String) :
    (List.lookup id s.clients = none →
      (s.GetMessages id).2 = PollResult.err ("client " ++ id ++ " not found")
        ∧ (s.GetMessages id).1 = s) ∧
    (∀ ref, List.lookup id s.clients = some ref →
      ((s.mbox ref).buf = [] →
        (s.GetMessages id).2 = PollResult.blocked ∧ (s.GetMessages id).1 = s)
        ∧
      (∀ x xs, (s.mbox ref).buf = x :: xs →
        (s.GetMessages id).2 = PollResult.msgs [x] ∧
        ((s.GetMessages id).1.mbox ref).buf = xs ∧
        (s.GetMessages id).1.clients = s.clients)) := by
  constructor
  · intro hlook
    constructor <;> simp only [ChatServer.GetMessages, hlook]
  · intro ref hlook
    have hmem : (id, ref) ∈ s.clients := Registry.lookup_mem hlook
    obtain ⟨hlen, hcl, _⟩ := hG.2.2 (id, ref) hmem
    constructor
    · intro hbuf
      have hrecv : (s.mbox ref).recv = RecvResult.block := by
        rw [Mailbox.recv, hbuf, hcl]
        rfl
      constructor <;> simp only [ChatServer.GetMessages, hlook, hrecv]
    · intro x xs hbuf
      have hrecv : (s.mbox ref).recv
          = RecvResult.value x true { s.mbox ref with buf := xs } := by
        rw [Mailbox.recv, hbuf]
      have hstate : (s.GetMessages id).1
          = { s with heap := s.heap.set ref { s.mbox ref with buf := xs } } := by
        simp only [ChatServer.GetMessages, hlook, hrecv]
      refine ⟨?_, ?_, ?_⟩
      · simp only [ChatServer.GetMessages, hlook, hrecv]
      · rw [hstate]
        show ((s.heap.set ref { s.mbox ref with buf := xs }).getD ref
          default).buf = xs
        rw [heapGet_set_self hlen]
      · rw [hstate]

/-- Witness for C7: with A and B joined (B's join notice pending in A's
mailbox), PollOne("A") delivers that one message and empties A's
mailbox; the same theorem also covers the error and blocking branches. -/
theorem C7_pollone_semantics_witness :
    (((initServer.Join "A").1.Join "B").1.GetMessages "A").2
      = PollResult.msgs ["📢 User B joined"] ∧
    ((((initServer.Join "A").1.Join "B").1.GetMessages "A").1.mbox 0).buf
      = [] ∧
    (((initServer.Join "A").1.Join "B").1.GetMessages "A").1.clients
      = ((initServer.Join "A").1.Join "B").1.clients :=
  ((C7_pollone_semantics ((initServer.Join "A").1.Join "B").1 (by decide)
    "A").2 0 (by decide)).2 "📢 User B joined" [] (by decide)

/-! ### Claim C8 -/

/-- C8 counterexample: the receive the code performs on a closed, empty
mailbox produces the plain zero-value string `""` — `Mailbox.recvMsg`
(the `msg := <-client.sendChan` binding, which discards the `ok` flag)
returns exactly the same `some ""` as it does for an open mailbox that
holds an ordinary pending text `""`.  The result is an ordinary message
value, not a distinguishable end-of-stream signal, so the claim fails at
the closed empty mailbox `⟨[], 10, true⟩`. -/
theorem C8_counterexample :
    Mailbox.recvMsg ⟨[], 10, true⟩ = some "" ∧
    Mailbox.recvMsg ⟨[""], 10, false⟩ = some "" ∧
    Mailbox.recv ⟨[], 10, true⟩ = RecvResult.value "" false ⟨[], 10, true⟩ := by
  decide

/-- C8 (amended): a dequeue on a closed empty mailbox does wake
immediately, returning the channel's zero value `""` with a false `ok`
flag — but the code discards the flag (`msg := <-client.sendChan`), so
what the consumer receives is an ordinary string, identical to an
ordinary delivered text `""`; termination is not distinguishable from a
delivered message at this interface. -/
theorem C8_amended_closed_dequeue_yields_zero_value (m : Mailbox)
    (hc : m.closed = true) (hb : m.buf = []) :
    m.recv = RecvResult.value "" false m ∧
    m.recvMsg = some "" ∧
    m.recvMsg = Mailbox.recvMsg ⟨[""], m.cap, false⟩ := by
  have h1 : m.recv = RecvResult.value "" false m := by
    rw [Mailbox.recv, hb, hc]
    rfl
  have h2 : m.recvMsg = some "" := by
    rw [Mailbox.recvMsg, h1]
  exact ⟨h1, h2, h2.trans rfl⟩

/-- Witness for the amended C8 at the concrete closed empty mailbox of
capacity 10 (what a Leave leaves behind for an emptied channel). -/
theorem C8_amended_closed_dequeue_yields_zero_value_witness :
    Mailbox.recv ⟨[], 10, true⟩
      = RecvResult.value "" false ⟨[], 10, true⟩ ∧
    Mailbox.recvMsg ⟨[], 10, true⟩ = some "" ∧
    Mailbox.recvMsg ⟨[], 10, true⟩
      = Mailbox.recvMsg ⟨[""], (Mailbox.mk [] 10 true).cap, false⟩ :=
  C8_amended_closed_dequeue_yields_zero_value ⟨[], 10, true⟩ rfl rfl
